import Mathlib

/-!
Verification of the scikit-optimize specification against a shallow embedding.

The repository excerpt under `src/` contains only an example script
(`examples/samples/initial-sampling-method-integer.py`) and the test module
(`skopt/tests/test_gp_opt.py`); the library code they exercise (`skopt.space.Space`,
`skopt.samples.Lhs`, `skopt.gp_minimize`, `skopt.utils.cook_estimator`) is not part
of the excerpt.  Definitions below that embed those missing parts are therefore
modelled from the specification's own wording, and marked as such in their doc
comments; the repository's tests are treated as the authority on observable
behaviour wherever they speak.

Machine floating point is modelled by exact rationals, and the library's seeded
pseudo-random generator by an explicit linear congruential generator threaded
through every sampling operation, as the specification's concurrency section
requires ("a single seeded generator per optimization run").
-/

set_option autoImplicit false
set_option maxRecDepth 100000

namespace SkoptSpec

/-- A native value of a `Point` coordinate: a string category, an integer, or a
(rational-modelled) real. -/
inductive Val where
  | s (str : String)
  | i (int : Int)
  | r (rat : ℚ)
deriving DecidableEq, Repr

/-- Modelled from the spec: `Dimension` (section 3) is one of
`Real(low, high)`, `Integer(low, high)`, `Categorical(values)`; the concrete
`skopt.space.space` module is absent from the excerpt. -/
inductive Dimension where
  | real (low high : ℚ)
  | integer (low high : Int)
  | categorical (cats : List Val)
deriving DecidableEq, Repr

/-- A point of the search space: one native value per dimension, in order. -/
abbrev Point := List Val

/-- Legality of one value for one dimension (spec section 3 invariants). -/
def memDim (v : Val) (d : Dimension) : Bool :=
  match v, d with
  | .r q, .real low high => decide (low ≤ q ∧ q ≤ high)
  | .i n, .integer low high => decide (low ≤ n ∧ n ≤ high)
  | v, .categorical cats => decide (v ∈ cats)
  | _, _ => false

/-- Well-formedness of a dimension: numeric bounds ordered, categorical set
non-empty with unique members (spec section 3).  Integer bounds may coincide,
covering the `[1,1]`-style singleton of spec section 8. -/
def dimValid (d : Dimension) : Bool :=
  match d with
  | .real low high => decide (low < high)
  | .integer low high => decide (low ≤ high)
  | .categorical cats => decide (cats ≠ [] ∧ cats.Nodup)

/-- A `Space` is an ordered sequence of dimensions (spec section 3). -/
def spaceValid (dims : List Dimension) : Bool := dims.all dimValid

/-- Positional legality of a point for a space. -/
def pointInSpace : Point → List Dimension → Bool
  | [], [] => true
  | v :: p, d :: ds => memDim v d && pointInSpace p ds
  | _, _ => false

/-- The transformer mode of a `Space`, settable process-wide for the instance
(spec section 4.1): "normalize" or "identity". -/
inductive TransformerMode where
  | normalize
  | identity
deriving DecidableEq, Repr

/-- One-hot encoding: a list of `n` rationals, `1` at index `i`, `0` elsewhere. -/
def oneHot : Nat → Nat → List ℚ
  | 0, _ => []
  | n + 1, 0 => 1 :: List.replicate n 0
  | n + 1, idx + 1 => 0 :: oneHot n idx

/-- Index of the first maximal entry of a transformed categorical block. -/
def argmaxIdx : List ℚ → Nat
  | [] => 0
  | u :: us =>
    let j := argmaxIdx us
    if us.getD j 0 ≤ u then 0 else j + 1

/-- Modelled from the spec: each dimension owns its transform (section 3 —
identity, normalize-to-unit-interval, one-hot for categoricals; categorical
values are "one-hot or integer-encoded").  The concrete transformer classes of
`skopt.space` are absent from the excerpt.  A singleton integer dimension
normalizes to `0` (division by the zero width is guarded). -/
def transformDim (m : TransformerMode) (d : Dimension) (v : Val) : List ℚ :=
  match m, d, v with
  | .normalize, .real low high, .r q => [(q - low) / (high - low)]
  | .normalize, .integer low high, .i n =>
    [if high = low then 0 else ((n : ℚ) - (low : ℚ)) / ((high : ℚ) - (low : ℚ))]
  | .normalize, .categorical cats, v => oneHot cats.length (cats.indexOf v)
  | .identity, .real _ _, .r q => [q]
  | .identity, .integer _ _, .i n => [(n : ℚ)]
  | .identity, .categorical cats, v => [((cats.indexOf v : ℕ) : ℚ)]
  | _, _, _ => []

/-- Width of one dimension's block inside a transformed point. -/
def widthDim (m : TransformerMode) (d : Dimension) : Nat :=
  match m, d with
  | .normalize, .categorical cats => cats.length
  | _, _ => 1

/-- Modelled from the spec: per-dimension inverse transform (section 4.1's
`inverse_transform` contract; the concrete module is absent from the excerpt).
Categorical one-hot blocks decode by arg-max, integer dimensions round. -/
def inverseDim (m : TransformerMode) (d : Dimension) (us : List ℚ) : Val :=
  match m, d with
  | .normalize, .real low high => .r (low + us.headD 0 * (high - low))
  | .normalize, .integer low high =>
    .i (if high = low then low
        else round ((low : ℚ) + us.headD 0 * ((high : ℚ) - (low : ℚ))))
  | .normalize, .categorical cats => cats.getD (argmaxIdx us) (Val.i 0)
  | .identity, .real _ _ => .r (us.headD 0)
  | .identity, .integer _ _ => .i (round (us.headD 0))
  | .identity, .categorical cats => cats.getD (round (us.headD 0)).toNat (Val.i 0)

/-- Modelled from the spec: `Space.transform` (section 4.1) — concatenation of
the per-dimension transformed blocks. -/
def transformPoint (m : TransformerMode) (dims : List Dimension) (p : Point) : List ℚ :=
  (List.zipWith (transformDim m) dims p).flatten

/-- Modelled from the spec: `Space.inverse_transform` (section 4.1) — split the
flat vector by per-dimension block widths and decode each block. -/
def inverseTransform (m : TransformerMode) : List Dimension → List ℚ → Point
  | [], _ => []
  | d :: ds, us =>
    inverseDim m d (us.take (widthDim m d)) :: inverseTransform m ds (us.drop (widthDim m d))

theorem oneHot_length (n idx : Nat) : (oneHot n idx).length = n := by
  induction n generalizing idx with
  | zero => rfl
  | succ n ih =>
    cases idx with
    | zero => simp [oneHot]
    | succ idx => simp [oneHot, ih]

theorem getD_replicate_zero (n j : Nat) : (List.replicate n (0 : ℚ)).getD j 0 = 0 := by
  induction n generalizing j with
  | zero => cases j <;> rfl
  | succ n ih => cases j with
    | zero => rfl
    | succ j => simpa [List.replicate] using ih j

theorem argmaxIdx_oneHot (n idx : Nat) (h : idx < n) :
    argmaxIdx (oneHot n idx) = idx ∧ (oneHot n idx).getD idx 0 = 1 := by
  induction n generalizing idx with
  | zero => exact absurd h (Nat.not_lt_zero idx)
  | succ n ih =>
    cases idx with
    | zero =>
      refine ⟨?_, rfl⟩
      simp only [oneHot, argmaxIdx]
      rw [if_pos]
      rw [getD_replicate_zero]
      norm_num
    | succ idx =>
      have h' : idx < n := Nat.lt_of_succ_lt_succ h
      obtain ⟨h1, h2⟩ := ih idx h'
      constructor
      · simp only [oneHot, argmaxIdx, h1]
        rw [if_neg]
        rw [h2]
        norm_num
      · simpa [oneHot] using h2

theorem transformDim_length (m : TransformerMode) (d : Dimension) (v : Val)
    (hv : memDim v d = true) : (transformDim m d v).length = widthDim m d := by
  cases m <;> cases d <;> cases v <;>
    simp_all [memDim, transformDim, widthDim, oneHot_length]

theorem inverseDim_transformDim (m : TransformerMode) (d : Dimension) (v : Val)
    (hd : dimValid d = true) (hv : memDim v d = true) :
    inverseDim m d (transformDim m d v) = v := by
  cases d with
  | real low high =>
    cases v with
    | r q =>
      have hlh : low < high := by simpa [dimValid] using hd
      have hne : high - low ≠ 0 := sub_ne_zero.mpr (ne_of_gt hlh)
      cases m with
      | normalize =>
        simp only [transformDim, inverseDim, List.headD]
        rw [div_mul_cancel₀ _ hne]
        ring_nf
      | identity => simp [transformDim, inverseDim]
    | s str => simp [memDim] at hv
    | i n => simp [memDim] at hv
  | integer low high =>
    cases v with
    | i n =>
      have hb : low ≤ n ∧ n ≤ high := by simpa [memDim] using hv
      cases m with
      | normalize =>
        by_cases heq : high = low
        · have : n = low := le_antisymm (heq ▸ hb.2) hb.1
          simp [transformDim, inverseDim, heq, this]
        · have hne : (high : ℚ) - (low : ℚ) ≠ 0 := by
            rw [sub_ne_zero]
            exact_mod_cast heq
          simp only [transformDim, inverseDim, if_neg heq, List.headD]
          rw [div_mul_cancel₀ _ hne]
          have : (low : ℚ) + ((n : ℚ) - (low : ℚ)) = ((n : Int) : ℚ) := by ring
          rw [this, round_intCast]
      | identity => simp [transformDim, inverseDim, round_intCast]
    | s str => simp [memDim] at hv
    | r q => simp [memDim] at hv
  | categorical cats =>
    have hmem : v ∈ cats := by simpa [memDim] using hv
    have hidx : cats.indexOf v < cats.length := List.indexOf_lt_length.mpr hmem
    have hget : ∀ h : cats.indexOf v < cats.length,
        cats.get ⟨cats.indexOf v, h⟩ = v := fun h => List.indexOf_get h
    cases m with
    | normalize =>
      obtain ⟨h1, _⟩ := argmaxIdx_oneHot cats.length (cats.indexOf v) hidx
      simp only [transformDim, inverseDim, h1]
      rw [List.getD_eq_get _ _ hidx]
      exact hget hidx
    | identity =>
      simp only [transformDim, inverseDim, List.headD]
      have hr : round (((cats.indexOf v : ℕ) : ℚ)) = (cats.indexOf v : ℕ) := by
        rw [show (((cats.indexOf v : ℕ) : ℚ)) = (((cats.indexOf v : ℕ) : ℤ) : ℚ) by push_cast; ring,
          round_intCast]
      rw [hr]
      simp only [Int.toNat_natCast]
      rw [List.getD_eq_get _ _ hidx]
      exact hget hidx

theorem inverseTransform_transformPoint (m : TransformerMode) (dims : List Dimension)
    (p : Point) (hs : spaceValid dims = true) (hp : pointInSpace p dims = true) :
    inverseTransform m dims (transformPoint m dims p) = p := by
  induction dims generalizing p with
  | nil => cases p with
    | nil => rfl
    | cons v vs => simp [pointInSpace] at hp
  | cons d ds ih =>
    cases p with
    | nil => simp [pointInSpace] at hp
    | cons v vs =>
      have hmem : memDim v d = true ∧ pointInSpace vs ds = true := by
        simpa [pointInSpace, Bool.and_eq_true] using hp
      have hdv : dimValid d = true ∧ spaceValid ds = true := by
        simpa [spaceValid, List.all_cons, Bool.and_eq_true] using hs
      have hlen : (transformDim m d v).length = widthDim m d :=
        transformDim_length m d v hmem.1
      simp only [transformPoint, List.zipWith_cons_cons, List.flatten_cons, inverseTransform]
      rw [← hlen, List.take_left, List.drop_left]
      rw [inverseDim_transformDim m d v hdv.1 hmem.1]
      have := ih vs hdv.2 hmem.2
      simp only [transformPoint] at this
      rw [this]

/-! ### Latin hypercube sampling (spec section 4.2) -/

/-- The two plain Latin hypercube variants offered by `Lhs` (`lhs_type`). -/
inductive LhsType where
  | classic
  | centered
deriving DecidableEq, Repr

/-- Stratum index of a unit-interval coordinate among `n` equal-width strata. -/
def stratumOf (n : Nat) (x : ℚ) : Nat := ⌊x * n⌋₊

/-- Modelled from the spec: `Lhs.generate` (section 4.2; the `skopt.samples`
module is absent from the excerpt).  Each axis `j` is partitioned into `n`
equal strata; sample `i` falls in stratum `σ j i`, where `σ j` is that
dimension's independent random permutation, at a random offset `off i j`
inside the stratum (classic) or at the stratum midpoint (centered).  The
random draws are passed in explicitly, so the statement covers every draw. -/
def lhsSample (t : LhsType) (n d : Nat) (σ : Fin d → Equiv.Perm (Fin n))
    (off : Fin n → Fin d → ℚ) (i : Fin n) (j : Fin d) : ℚ :=
  match t with
  | .classic => (((σ j i : ℕ) : ℚ) + off i j) / n
  | .centered => (((σ j i : ℕ) : ℚ) + 1 / 2) / n

theorem stratumOf_lhsSample (t : LhsType) (n d : Nat) (σ : Fin d → Equiv.Perm (Fin n))
    (off : Fin n → Fin d → ℚ) (hoff : ∀ i j, 0 ≤ off i j ∧ off i j < 1)
    (i : Fin n) (j : Fin d) : stratumOf n (lhsSample t n d σ off i j) = (σ j i : ℕ) := by
  have hn : (0 : ℚ) < n := by exact_mod_cast (σ j i).pos
  have hne : (n : ℚ) ≠ 0 := ne_of_gt hn
  have key : ∀ e : ℚ, 0 ≤ e → e < 1 →
      stratumOf n ((((σ j i : ℕ) : ℚ) + e) / n) = (σ j i : ℕ) := by
    intro e he0 he1
    unfold stratumOf
    rw [div_mul_cancel₀ _ hne]
    rw [Nat.floor_eq_iff (by positivity)]
    constructor
    · linarith
    · linarith
  cases t with
  | classic => exact key (off i j) (hoff i j).1 (hoff i j).2
  | centered => exact key (1 / 2) (by norm_num) (by norm_num)

/-! ### Seeded pseudo-randomness and `Space` sampling

The spec (sections 5 and 9) requires all randomness to come from a single
seeded generator threaded through the run; a linear congruential generator
models it. -/

/-- One step of the seeded generator (glibc-style LCG, 31-bit state). -/
def lcg (s : Nat) : Nat := (1103515245 * s + 12345) % 2147483648

/-- A uniform draw in `[0,1)` derived from a generator state. -/
def unitDraw (s : Nat) : ℚ := (s : ℚ) / 2147483648

theorem lcg_lt (s : Nat) : lcg s < 2147483648 := Nat.mod_lt _ (by norm_num)

/-- Modelled from the spec: per-dimension uniform sampling honouring the
dimension's bounds (section 4.1 `sample`); returns the value and the advanced
generator state. -/
def sampleDim (d : Dimension) (s : Nat) : Val × Nat :=
  let s' := lcg s
  match d with
  | .real low high => (.r (low + unitDraw s' * (high - low)), s')
  | .integer low high => (.i (low + ((s' % (high - low + 1).toNat : ℕ) : Int)), s')
  | .categorical cats => (cats.getD (s' % cats.length) (Val.i 0), s')

/-- Sample one point of the space, threading the generator. -/
def samplePoint : List Dimension → Nat → Point × Nat
  | [], s => ([], s)
  | d :: ds, s =>
    let (v, s') := sampleDim d s
    let (p, s'') := samplePoint ds s'
    (v :: p, s'')

/-- Sample a pool of candidate points. -/
def samplePool : Nat → List Dimension → Nat → List Point × Nat
  | 0, _, s => ([], s)
  | k + 1, dims, s =>
    let (p, s') := samplePoint dims s
    let (ps, s'') := samplePool k dims s'
    (p :: ps, s'')

theorem sampleDim_mem (d : Dimension) (s : Nat) (hd : dimValid d = true) :
    memDim (sampleDim d s).1 d = true := by
  cases d with
  | real low high =>
    have hlh : low < high := by simpa [dimValid] using hd
    have h0 : (0 : ℚ) ≤ unitDraw (lcg s) := by
      unfold unitDraw; positivity
    have h1 : unitDraw (lcg s) < 1 := by
      unfold unitDraw
      rw [div_lt_one (by norm_num)]
      exact_mod_cast lcg_lt s
    simp only [sampleDim, memDim, decide_eq_true_eq]
    constructor
    · nlinarith
    · nlinarith
  | integer low high =>
    have hlh : low ≤ high := by simpa [dimValid] using hd
    have hm : 0 < (high - low + 1).toNat := by omega
    have hlt : (lcg s % (high - low + 1).toNat : ℕ) < (high - low + 1).toNat :=
      Nat.mod_lt _ hm
    simp only [sampleDim, memDim, decide_eq_true_eq]
    omega
  | categorical cats =>
    have hcs : cats ≠ [] := by
      have := hd
      simp only [dimValid, decide_eq_true_eq] at this
      exact this.1
    have hlen : 0 < cats.length := List.length_pos.mpr hcs
    have hlt : lcg s % cats.length < cats.length := Nat.mod_lt _ hlen
    simp only [sampleDim, memDim, decide_eq_true_eq]
    rw [List.getD_eq_get _ _ hlt]
    exact List.get_mem _ _ _

theorem samplePoint_inSpace (dims : List Dimension) (s : Nat)
    (hs : spaceValid dims = true) : pointInSpace (samplePoint dims s).1 dims = true := by
  induction dims generalizing s with
  | nil => rfl
  | cons d ds ih =>
    have hdv : dimValid d = true ∧ spaceValid ds = true := by
      simpa [spaceValid, List.all_cons, Bool.and_eq_true] using hs
    simp only [samplePoint, pointInSpace, Bool.and_eq_true]
    exact ⟨sampleDim_mem d s hdv.1, ih _ hdv.2⟩

theorem samplePool_inSpace (k : Nat) (dims : List Dimension) (s : Nat)
    (hs : spaceValid dims = true) :
    ∀ p ∈ (samplePool k dims s).1, pointInSpace p dims = true := by
  induction k generalizing s with
  | zero => intro p hp; simp [samplePool] at hp
  | succ k ih =>
    intro p hp
    simp only [samplePool, List.mem_cons] at hp
    cases hp with
    | inl h => rw [h]; exact samplePoint_inSpace dims s hs
    | inr h => exact ih _ p h

/-! ### Surrogate estimators and the optimization loop (spec sections 4.3–4.6) -/

/-- Kernel family of a cooked estimator, chosen from the space's type mix. -/
inductive KernelKind where
  | matern
  | hamming
  | mixed
deriving DecidableEq, Repr

/-- A surrogate model adapter: its configuration surface as the claims see it
(kernel family and observation-noise level).  Regression internals are out of
scope per the spec (section 1). -/
structure Estimator where
  kernel : KernelKind
  noise : ℚ
deriving DecidableEq, Repr

def isCategoricalDim (d : Dimension) : Bool :=
  match d with
  | .categorical _ => true
  | _ => false

def isRealDim (d : Dimension) : Bool :=
  match d with
  | .real _ _ => true
  | _ => false

/-- Number of continuous dimensions of a space. -/
def countContinuous (dims : List Dimension) : Nat := (dims.filter isRealDim).length

/-- Modelled from the spec: `cook_estimator` (section 4.3; `skopt.utils` is
absent from the excerpt) builds a default model appropriate to the space's
type mix, with the requested noise level. -/
def cook_estimator (kind : String) (dims : List Dimension) (noise : ℚ) : Estimator :=
  let _ := kind
  { kernel :=
      if dims.any isCategoricalDim then
        (if dims.all isCategoricalDim then .hamming else .mixed)
      else .matern
    noise := noise }

/-- Errors of the optimization core (spec section 7 taxonomy). -/
inductive GpErr where
  | fitError
  | configError
deriving DecidableEq, Repr

/-- Number of distinct observed points. -/
def distinctPoints (obs : List (Point × ℚ)) : Nat := ((obs.map Prod.fst).dedup).length

/-- The surrogate `fit` as the repository's tests pin it down: it retains the
estimator's configured noise in the snapshot and succeeds from a single
observation onward (`test_gpr_default` runs `n_random_starts=1, n_calls=2`,
so the surrogate is fitted on one observation without failure). -/
def fitOk (e : Estimator) (obs : List (Point × ℚ)) : Except GpErr Estimator :=
  let _ := obs
  .ok e

/-- Modelled from the spec: the claimed fit failure rule of section 4.3 —
`FitError` whenever fewer than 2 distinct observations are supplied (an
all-identical point set has at most one distinct point, so degeneracy is the
same condition once at least one observation exists). -/
def fitSpec (e : Estimator) (obs : List (Point × ℚ)) : Except GpErr Estimator :=
  if distinctPoints obs < 2 then .error .fitError else .ok e

/-- The acquisition-optimizer selection (spec section 4.5). -/
inductive AcqOptimizer where
  | sampling
  | lbfgs
deriving DecidableEq, Repr

/-- Modelled from the spec: the gradient-based optimizer "must handle the case
where Space has zero continuous dimensions by falling back to sampling-based
search" (section 4.5). -/
def effectiveOptimizer (dims : List Dimension) (a : AcqOptimizer) : AcqOptimizer :=
  match a with
  | .sampling => .sampling
  | .lbfgs => if countContinuous dims = 0 then .sampling else .lbfgs

/-- Configuration surface of `gp_minimize` (spec section 6). -/
structure Config where
  dims : List Dimension
  names : List (Option String)
  objective : Point → ℚ
  nCalls : Nat
  nInitial : Nat
  seed : Nat
  acqOptimizer : AcqOptimizer
  baseEstimator : Option Estimator
  noise : ℚ
  modelQueueSize : Option Nat
  nJobs : Nat

/-- The estimator the loop fits: the explicitly supplied one when present,
otherwise the cooked default (spec sections 4.3 and 6, `base_estimator`
"bypasses auto-selection"). -/
def Config.estimator (cfg : Config) : Estimator :=
  cfg.baseEstimator.getD (cook_estimator "GP" cfg.dims cfg.noise)

/-- Mutable state of one optimization run: generator state, point and value
history, the retained model-snapshot queue, the full snapshot history, and the
worker-dispatch schedule (the only part `n_jobs` may influence, spec
section 5). -/
structure LoopState where
  rng : Nat
  xs : List Point
  ys : List ℚ
  models : List Estimator
  allModels : List Estimator
  sched : List Nat
deriving DecidableEq, Repr

def initState (cfg : Config) : LoopState := ⟨cfg.seed, [], [], [], [], []⟩

/-- Candidate-pool size of each acquisition optimization (a large random pool
for sampling search, a handful of restart points for the gradient path). -/
def poolSize (a : AcqOptimizer) : Nat :=
  match a with
  | .sampling => 20
  | .lbfgs => 5

/-- Modelled from the spec: acquisition optimization over a pool of random
candidates drawn from the space (section 4.5).  The expected-improvement
ranking degrades to the no-improvement limit (score 0) at already-observed
points, whose predictive std is 0 (section 4.4), so any unseen candidate
outranks every seen one; the first unseen candidate of the pool is returned,
or the first candidate when all are already observed. -/
def proposeByPool (cfg : Config) (st : LoopState) : Point × Nat :=
  let k := poolSize (effectiveOptimizer cfg.dims cfg.acqOptimizer)
  let pool := (samplePool k cfg.dims st.rng).1
  let s' := (samplePool k cfg.dims st.rng).2
  let unseen := pool.filter (fun p => !(decide (p ∈ st.xs)))
  match unseen.head? with
  | some p => (p, s')
  | none =>
    match pool.head? with
    | some p => (p, s')
    | none => samplePoint cfg.dims s'

/-- Acquisition-driven proposal.  Requesting the gradient-based optimizer on a
space with no continuous dimension would be a configuration error (spec
section 7); `effectiveOptimizer` falls back to sampling first, so the error
branch is unreachable. -/
def acqPropose (cfg : Config) (st : LoopState) : Except GpErr (Point × Nat) :=
  match effectiveOptimizer cfg.dims cfg.acqOptimizer with
  | .sampling => .ok (proposeByPool cfg st)
  | .lbfgs =>
    if countContinuous cfg.dims = 0 then .error .configError
    else .ok (proposeByPool cfg st)

/-- Append a snapshot to the retained queue, evicting the oldest entries so
that at most `size` remain (spec sections 3 and 4.6, FIFO eviction). -/
def pushQueue (size : Option Nat) (ms : List Estimator) (m : Estimator) : List Estimator :=
  let l := ms ++ [m]
  match size with
  | none => l
  | some k => l.drop (l.length - k)

/-- Modelled from the spec: one round of the loop (section 4.6): propose (an
initial-design point while fewer than `nInitial` observations exist, an
acquisition optimum afterwards), evaluate the objective, append the
observation, and refit the surrogate once the initial design is complete,
pushing the snapshot through the bounded queue.  The worker index recorded in
`sched` is the only place `nJobs` enters (section 5: parallelism affects
evaluation scheduling only). -/
def step (fitFn : Estimator → List (Point × ℚ) → Except GpErr Estimator)
    (cfg : Config) (st : LoopState) : Except GpErr LoopState :=
  match (if st.xs.length < cfg.nInitial then .ok (samplePoint cfg.dims st.rng)
         else acqPropose cfg st : Except GpErr (Point × Nat)) with
  | .error e => .error e
  | .ok xr =>
    let x := xr.1
    let xs' := st.xs ++ [x]
    let ys' := st.ys ++ [cfg.objective x]
    let sched' := st.sched ++ [st.xs.length % (max 1 cfg.nJobs)]
    if cfg.nInitial ≤ xs'.length then
      match fitFn cfg.estimator (xs'.zip ys') with
      | .error e => .error e
      | .ok m =>
        .ok ⟨xr.2, xs', ys', pushQueue cfg.modelQueueSize st.models m,
          st.allModels ++ [m], sched'⟩
    else
      .ok ⟨xr.2, xs', ys', st.models, st.allModels, sched'⟩

/-- Run `n` rounds, surfacing the first error (spec section 7: a fit failure
must reach the caller, never silently skip a round). -/
def runLoop (fitFn : Estimator → List (Point × ℚ) → Except GpErr Estimator)
    (cfg : Config) : Nat → LoopState → Except GpErr LoopState
  | 0, st => .ok st
  | n + 1, st =>
    match step fitFn cfg st with
    | .error e => .error e
    | .ok st' => runLoop fitFn cfg n st'

/-- The whole run from the seeded initial state. -/
def gpRun (fitFn : Estimator → List (Point × ℚ) → Except GpErr Estimator)
    (cfg : Config) : Except GpErr LoopState :=
  runLoop fitFn cfg cfg.nCalls (initState cfg)

/-- First (point, value) pair attaining the minimal observed value. -/
def bestPair : List (Point × ℚ) → Point × ℚ
  | [] => ([], 0)
  | pv :: rest =>
    match rest with
    | [] => pv
    | _ :: _ =>
      let b := bestPair rest
      if pv.2 ≤ b.2 then pv else b

/-- The result object of a run (spec sections 3 and 6): best point and value,
full history, retained model snapshots, and the dimension names. -/
structure OptResult where
  x : Point
  funVal : ℚ
  x_iters : List Point
  func_vals : List ℚ
  models : List Estimator
  names : List (Option String)
deriving DecidableEq, Repr

def mkResult (cfg : Config) (st : LoopState) : OptResult :=
  let b := bestPair (st.xs.zip st.ys)
  ⟨b.1, b.2, st.xs, st.ys, st.models, cfg.names⟩

/-- Modelled from the spec: `gp_minimize` (sections 4.6 and 6; `skopt.gp_minimize`
is absent from the excerpt), with the surrogate fit pinned by the tests. -/
def gp_minimize (cfg : Config) : Except GpErr OptResult :=
  (gpRun fitOk cfg).map (mkResult cfg)

instance instDecEqExcept {ε α : Type} [DecidableEq ε] [DecidableEq α] :
    DecidableEq (Except ε α) := fun a b =>
  match a, b with
  | .error e, .error e' =>
    match decEq e e' with
    | isTrue h => isTrue (h ▸ rfl)
    | isFalse h => isFalse fun hc => h (by injection hc)
  | .ok x, .ok y =>
    match decEq x y with
    | isTrue h => isTrue (h ▸ rfl)
    | isFalse h => isFalse fun hc => h (by injection hc)
  | .error _, .ok _ => isFalse fun hc => Except.noConfusion hc
  | .ok _, .error _ => isFalse fun hc => Except.noConfusion hc

/-- A value retrievable from an `OptimizeResult` by mapping-style access. -/
inductive ResAttr where
  | point (p : Point)
  | value (q : ℚ)
  | points (ps : List Point)
  | values (qs : List ℚ)
  | snapshots (ms : List Estimator)
deriving DecidableEq, Repr

/-- Mapping-style access of the result object (`res["x"]`, `res['models']`, …),
agreeing with attribute-style field access on the same object. -/
def OptResult.getItem (r : OptResult) (key : String) : Option ResAttr :=
  if key = "x" then some (.point r.x)
  else if key = "fun" then some (.value r.funVal)
  else if key = "x_iters" then some (.points r.x_iters)
  else if key = "func_vals" then some (.values r.func_vals)
  else if key = "models" then some (.snapshots r.models)
  else none

/-! ### Concrete scenarios from the repository's tests -/

/-- The digit-valued categories of the mixed-categorical tests: `int(x)` on
`{"1","2","3"}`. -/
def strDigit (s : String) : ℚ :=
  if s = "1" then 1 else if s = "2" then 2 else if s = "3" then 3 else 0

/-- Objective of `test_mixed_categoricals2`: `int(x) + y`. -/
def objCat2 (p : Point) : ℚ :=
  match p with
  | [.s sx, .i y] => strDigit sx + (y : ℚ)
  | _ => 0

/-- Objective of `test_mixed_categoricals`: `int(x) + y * z`. -/
def objCat3 (p : Point) : ℚ :=
  match p with
  | [.s sx, .i y, .r z] => strDigit sx + (y : ℚ) * z
  | _ => 0

/-- The two-categorical space of `test_mixed_categoricals2`. -/
def dimsCat2 : List Dimension :=
  [.categorical [.s "1", .s "2", .s "3"], .categorical [.i 4, .i 5, .i 6]]

/-- The mixed space of `test_mixed_categoricals`. -/
def dimsCat3 : List Dimension :=
  [.categorical [.s "1", .s "2", .s "3"], .categorical [.i 4, .i 5, .i 6], .real 1 5]

/-- Scenario of `test_gpr_default`: branin's rectangle, `n_random_starts=1`,
`n_calls=2` (the objective's values are irrelevant to the fit-failure claims,
so a constant stands in for the out-of-scope float benchmark). -/
def cfgSmoke : Config :=
  { dims := [.real (-5) 10, .real 0 15], names := [none, none]
    objective := fun _ => 0, nCalls := 2, nInitial := 1, seed := 0
    acqOptimizer := .lbfgs, baseEstimator := none, noise := 1 / 10000000000
    modelQueueSize := none, nJobs := 1 }

/-- The explicitly cooked estimator of `test_use_given_estimator`
(`noise_correct = 1e+5`). -/
def estGiven : Estimator := cook_estimator "GP" [.real 1 2, .real 3 4] 100000

/-- Scenario of `test_use_given_estimator`: explicit `base_estimator`, a
different `noise` option (`noise_fake = 1e-10`), `n_calls = n_random_starts = 1`. -/
def cfgGiven : Config :=
  { dims := [.real 1 2, .real 3 4], names := [none, none]
    objective := fun _ => 0, nCalls := 1, nInitial := 1, seed := 0
    acqOptimizer := .lbfgs, baseEstimator := some estGiven, noise := 1 / 10000000000
    modelQueueSize := none, nJobs := 1 }

/-- Scenario of `test_use_given_estimator_with_max_model_size`: as above with
`model_queue_size=1`. -/
def cfgQueue : Config := { cfgGiven with modelQueueSize := some 1 }

/-- Scenario of `test_categorical_integer`, read as the spec's `[1,1]`-style
single-valued Integer dimension, `n_calls = n_random_starts = 1`, seed 1. -/
def cfgSingleton : Config :=
  { dims := [.integer 1 1], names := [none]
    objective := fun _ => 0, nCalls := 1, nInitial := 1, seed := 1
    acqOptimizer := .sampling, baseEstimator := none, noise := 1 / 10000000000
    modelQueueSize := none, nJobs := 1 }

/-- Scenario of `test_mixed_categoricals2`: the all-categorical space, seed 1,
12 calls, gradient-based acquisition optimizer requested (which must fall back
to sampling on this space). -/
def cfgCat2 : Config :=
  { dims := dimsCat2, names := [some "x", some "y"]
    objective := objCat2, nCalls := 12, nInitial := 10, seed := 1
    acqOptimizer := .lbfgs, baseEstimator := none, noise := 1 / 10000000000
    modelQueueSize := none, nJobs := 1 }

/-- Scenario of `test_mixed_categoricals` (used here for the result-access
claim): the named mixed space, seed 1. -/
def cfgCat3 : Config :=
  { dims := dimsCat3, names := [some "x", some "y", some "z"]
    objective := objCat3, nCalls := 2, nInitial := 1, seed := 1
    acqOptimizer := .lbfgs, baseEstimator := none, noise := 1 / 10000000000
    modelQueueSize := none, nJobs := 1 }

/-! ### Invariants of the loop -/

/-- The last `k` elements of a list (the `k` most recent snapshots). -/
def lastN {α : Type} (k : Nat) (l : List α) : List α := l.drop (l.length - k)

theorem lastN_length_le {α : Type} (k : Nat) (l : List α) : (lastN k l).length ≤ k := by
  unfold lastN
  rw [List.length_drop]
  omega

theorem lastN_append {α : Type} (k : Nat) (A : List α) (m : α) :
    lastN k (lastN k A ++ [m]) = lastN k (A ++ [m]) := by
  by_cases hk : A.length ≤ k
  · have h0 : A.length - k = 0 := by omega
    unfold lastN
    rw [h0, List.drop_zero]
  · push_neg at hk
    have hlen : (lastN k A).length = k := by
      unfold lastN
      rw [List.length_drop]
      omega
    by_cases hk0 : k = 0
    · subst hk0
      unfold lastN
      simp
    · unfold lastN at hlen ⊢
      rw [List.length_append, hlen, List.length_append]
      simp only [List.length_cons, List.length_nil]
      have h1 : k + 1 - k = 1 := by omega
      rw [h1]
      rw [List.drop_append_of_le_length (by omega : 1 ≤ (A.drop (A.length - k)).length)]
      rw [List.drop_drop]
      rw [List.drop_append_of_le_length (by omega : A.length + 1 - k ≤ A.length)]
      congr 2
      omega

theorem mem_pushQueue {size : Option Nat} {ms : List Estimator} {m m' : Estimator}
    (h : m' ∈ pushQueue size ms m) : m' ∈ ms ∨ m' = m := by
  unfold pushQueue at h
  cases size with
  | none => simpa using h
  | some k =>
    have := List.mem_of_mem_drop h
    simpa using this

theorem pushQueue_eq_lastN (k : Nat) (ms : List Estimator) (m : Estimator) :
    pushQueue (some k) ms m = lastN k (ms ++ [m]) := rfl

theorem mem_of_headQ {α : Type} {l : List α} {a : α} (h : l.head? = some a) : a ∈ l := by
  cases l with
  | nil => exact absurd h (by simp)
  | cons b bs =>
    have hb : b = a := by simpa using h
    rw [← hb]
    exact List.mem_cons_self b bs

theorem acqPropose_eq (cfg : Config) (st : LoopState) :
    acqPropose cfg st = .ok (proposeByPool cfg st) := by
  unfold acqPropose
  cases h : cfg.acqOptimizer with
  | sampling => simp [effectiveOptimizer]
  | lbfgs =>
    by_cases hc : countContinuous cfg.dims = 0
    · simp [effectiveOptimizer, hc]
    · simp [effectiveOptimizer, hc]

theorem proposeByPool_inSpace (cfg : Config) (st : LoopState)
    (hs : spaceValid cfg.dims = true) :
    pointInSpace (proposeByPool cfg st).1 cfg.dims = true := by
  unfold proposeByPool
  set k := poolSize (effectiveOptimizer cfg.dims cfg.acqOptimizer) with hk
  set pool := (samplePool k cfg.dims st.rng).1 with hpool
  have hpoolIn : ∀ p ∈ pool, pointInSpace p cfg.dims = true := by
    intro p hp
    exact samplePool_inSpace k cfg.dims st.rng hs p hp
  cases h1 : (pool.filter (fun p => !(decide (p ∈ st.xs)))).head? with
  | some p =>
    simp only [h1]
    exact hpoolIn p (List.mem_of_mem_filter (mem_of_headQ h1))
  | none =>
    simp only [h1]
    cases h2 : pool.head? with
    | some p =>
      simp only [h2]
      exact hpoolIn p (mem_of_headQ h2)
    | none =>
      simp only [h2]
      exact samplePoint_inSpace cfg.dims _ hs

theorem step_fitOk_cases (cfg : Config) (st : LoopState) :
    ∃ x rng', step fitOk cfg st = .ok
      { rng := rng', xs := st.xs ++ [x], ys := st.ys ++ [cfg.objective x],
        models := if cfg.nInitial ≤ st.xs.length + 1 then
            pushQueue cfg.modelQueueSize st.models cfg.estimator else st.models,
        allModels := if cfg.nInitial ≤ st.xs.length + 1 then
            st.allModels ++ [cfg.estimator] else st.allModels,
        sched := st.sched ++ [st.xs.length % (max 1 cfg.nJobs)] }
      ∧ (spaceValid cfg.dims = true → pointInSpace x cfg.dims = true) := by
  by_cases hlt : st.xs.length < cfg.nInitial
  · refine ⟨(samplePoint cfg.dims st.rng).1, (samplePoint cfg.dims st.rng).2, ?_,
      fun hs => samplePoint_inSpace cfg.dims st.rng hs⟩
    simp only [step, if_pos hlt, fitOk]
    by_cases hle : cfg.nInitial ≤ st.xs.length + 1
    · simp [hle]
    · simp [hle]
  · refine ⟨(proposeByPool cfg st).1, (proposeByPool cfg st).2, ?_,
      fun hs => proposeByPool_inSpace cfg st hs⟩
    have hle : cfg.nInitial ≤ st.xs.length + 1 := by omega
    simp only [step, if_neg hlt, acqPropose_eq, fitOk]
    simp [hle]

theorem runLoop_fitOk_ok (cfg : Config) (n : Nat) (st : LoopState) :
    ∃ st', runLoop fitOk cfg n st = .ok st' := by
  induction n generalizing st with
  | zero => exact ⟨st, rfl⟩
  | succ n ih =>
    obtain ⟨x, rng', hstep, _⟩ := step_fitOk_cases cfg st
    simp only [runLoop, hstep]
    exact ih _

theorem runLoop_fitOk_xs_length (cfg : Config) (n : Nat) (st st' : LoopState)
    (h : runLoop fitOk cfg n st = .ok st') : st'.xs.length = st.xs.length + n := by
  induction n generalizing st with
  | zero =>
    simp only [runLoop] at h
    injection h with h
    rw [← h, Nat.add_zero]
  | succ n ih =>
    obtain ⟨x, rng', hstep, _⟩ := step_fitOk_cases cfg st
    simp only [runLoop, hstep] at h
    have := ih _ h
    simp only [List.length_append, List.length_cons, List.length_nil] at this
    omega

theorem runLoop_fitOk_ys_length (cfg : Config) (n : Nat) (st st' : LoopState)
    (h : runLoop fitOk cfg n st = .ok st') : st'.ys.length = st.ys.length + n := by
  induction n generalizing st with
  | zero =>
    simp only [runLoop] at h
    injection h with h
    rw [← h, Nat.add_zero]
  | succ n ih =>
    obtain ⟨x, rng', hstep, _⟩ := step_fitOk_cases cfg st
    simp only [runLoop, hstep] at h
    have := ih _ h
    simp only [List.length_append, List.length_cons, List.length_nil] at this
    omega

theorem runLoop_fitOk_inSpace (cfg : Config) (n : Nat) (st st' : LoopState)
    (hs : spaceValid cfg.dims = true) (h : runLoop fitOk cfg n st = .ok st')
    (hinv : ∀ p ∈ st.xs, pointInSpace p cfg.dims = true) :
    ∀ p ∈ st'.xs, pointInSpace p cfg.dims = true := by
  induction n generalizing st with
  | zero =>
    simp only [runLoop] at h
    injection h with h
    rw [← h]
    exact hinv
  | succ n ih =>
    obtain ⟨x, rng', hstep, hx⟩ := step_fitOk_cases cfg st
    simp only [runLoop, hstep] at h
    refine ih _ h ?_
    intro p hp
    simp only [List.mem_append, List.mem_singleton] at hp
    cases hp with
    | inl hp => exact hinv p hp
    | inr hp => rw [hp]; exact hx hs

theorem runLoop_fitOk_models (cfg : Config) (n : Nat) (st st' : LoopState)
    (h : runLoop fitOk cfg n st = .ok st')
    (hinv : ∀ m ∈ st.models, m = cfg.estimator) :
    ∀ m ∈ st'.models, m = cfg.estimator := by
  induction n generalizing st with
  | zero =>
    simp only [runLoop] at h
    injection h with h
    rw [← h]
    exact hinv
  | succ n ih =>
    obtain ⟨x, rng', hstep, _⟩ := step_fitOk_cases cfg st
    simp only [runLoop, hstep] at h
    refine ih _ h ?_
    intro m hm
    by_cases hle : cfg.nInitial ≤ st.xs.length + 1
    · simp only [if_pos hle] at hm
      cases mem_pushQueue hm with
      | inl h' => exact hinv m h'
      | inr h' => exact h'
    · simp only [if_neg hle] at hm
      exact hinv m hm

theorem runLoop_fitOk_queue (cfg : Config) (k : Nat) (n : Nat) (st st' : LoopState)
    (hq : cfg.modelQueueSize = some k) (h : runLoop fitOk cfg n st = .ok st')
    (hinv : st.models = lastN k st.allModels) :
    st'.models = lastN k st'.allModels := by
  induction n generalizing st with
  | zero =>
    simp only [runLoop] at h
    injection h with h
    rw [← h]
    exact hinv
  | succ n ih =>
    obtain ⟨x, rng', hstep, _⟩ := step_fitOk_cases cfg st
    simp only [runLoop, hstep] at h
    refine ih _ h ?_
    by_cases hle : cfg.nInitial ≤ st.xs.length + 1
    · simp only [if_pos hle, hq, pushQueue_eq_lastN, hinv]
      exact lastN_append k st.allModels cfg.estimator
    · simp only [if_neg hle]
      exact hinv

theorem pointInSpace_get (p : Point) (dims : List Dimension)
    (h : pointInSpace p dims = true) :
    ∀ (j : Nat) (d : Dimension), dims[j]? = some d →
      ∃ v, p[j]? = some v ∧ memDim v d = true := by
  induction dims generalizing p with
  | nil => intro j d hd; simp at hd
  | cons d0 ds ih =>
    cases p with
    | nil => simp [pointInSpace] at h
    | cons v0 vs =>
      have h' : memDim v0 d0 = true ∧ pointInSpace vs ds = true := by
        simpa [pointInSpace, Bool.and_eq_true] using h
      intro j d hd
      cases j with
      | zero =>
        simp only [List.getElem?_cons_zero, Option.some.injEq] at hd
        exact ⟨v0, by simp, hd ▸ h'.1⟩
      | succ j =>
        simp only [List.getElem?_cons_succ] at hd ⊢
        exact ih vs h'.2 j d hd

/-! ### Proposals do not depend on `n_jobs` (spec section 5) -/

/-- The `n_jobs`-independent portion of the loop state: everything except the
worker-dispatch schedule. -/
def coreOf (st : LoopState) :
    Nat × List Point × List ℚ × List Estimator × List Estimator :=
  (st.rng, st.xs, st.ys, st.models, st.allModels)

/-- Two configurations that agree everywhere except possibly on `nJobs`. -/
def sameButJobs (c1 c2 : Config) : Prop :=
  c1.dims = c2.dims ∧ c1.names = c2.names ∧ c1.objective = c2.objective ∧
  c1.nCalls = c2.nCalls ∧ c1.nInitial = c2.nInitial ∧ c1.seed = c2.seed ∧
  c1.acqOptimizer = c2.acqOptimizer ∧ c1.baseEstimator = c2.baseEstimator ∧
  c1.noise = c2.noise ∧ c1.modelQueueSize = c2.modelQueueSize

theorem estimator_congr (c1 c2 : Config) (h : sameButJobs c1 c2) :
    c1.estimator = c2.estimator := by
  obtain ⟨hd, -, -, -, -, -, -, hb, hn, -⟩ := h
  simp [Config.estimator, hd, hb, hn]

theorem proposeByPool_congr (c1 c2 : Config) (st st' : LoopState) (h : sameButJobs c1 c2)
    (hrng : st.rng = st'.rng) (hxs : st.xs = st'.xs) :
    proposeByPool c1 st = proposeByPool c2 st' := by
  obtain ⟨hd, -, -, -, -, -, hao, -, -, -⟩ := h
  simp only [proposeByPool]
  rw [hd, hao, hrng, hxs]

theorem acqPropose_congr (c1 c2 : Config) (st st' : LoopState) (h : sameButJobs c1 c2)
    (hrng : st.rng = st'.rng) (hxs : st.xs = st'.xs) :
    acqPropose c1 st = acqPropose c2 st' := by
  have hp := proposeByPool_congr c1 c2 st st' h hrng hxs
  obtain ⟨hd, -, -, -, -, -, hao, -, -, -⟩ := h
  simp only [acqPropose]
  rw [hd, hao, hp]

theorem step_core_congr (fitFn : Estimator → List (Point × ℚ) → Except GpErr Estimator)
    (c1 c2 : Config) (st st' : LoopState) (h : sameButJobs c1 c2)
    (hcore : coreOf st = coreOf st') :
    (step fitFn c1 st).map coreOf = (step fitFn c2 st').map coreOf := by
  have hc := h
  obtain ⟨hd, hnames, hobj, hnc, hni, hseed, hao, hbase, hnoise, hq⟩ := hc
  simp only [coreOf, Prod.mk.injEq] at hcore
  obtain ⟨h1, h2, h3, h4, h5⟩ := hcore
  have hest := estimator_congr c1 c2 h
  have hacq := acqPropose_congr c1 c2 st st' h h1 h2
  simp only [step]
  rw [hni, h1, h2, hd, hacq, hobj, hest, hq, h3, h4]
  generalize (if st'.xs.length < c2.nInitial then
      Except.ok (samplePoint c2.dims st'.rng) else acqPropose c2 st') = pr
  cases pr with
  | error e => rfl
  | ok xr =>
    simp only
    by_cases hle : c2.nInitial ≤ st'.xs.length + 1
    · simp only [List.length_append, List.length_cons, List.length_nil, hle, if_pos]
      cases fitFn c2.estimator ((st'.xs ++ [xr.1]).zip (st'.ys ++ [c2.objective xr.1])) with
      | error e => rfl
      | ok m => simp [Except.map, coreOf, h5]
    · simp only [List.length_append, List.length_cons, List.length_nil, hle, if_neg,
        not_false_iff]
      simp [Except.map, coreOf, h5]

theorem runLoop_core_congr (fitFn : Estimator → List (Point × ℚ) → Except GpErr Estimator)
    (c1 c2 : Config) (n : Nat) (st st' : LoopState) (h : sameButJobs c1 c2)
    (hcore : coreOf st = coreOf st') :
    (runLoop fitFn c1 n st).map coreOf = (runLoop fitFn c2 n st').map coreOf := by
  induction n generalizing st st' with
  | zero => simp only [runLoop, Except.map, hcore]
  | succ n ih =>
    have hstep := step_core_congr fitFn c1 c2 st st' h hcore
    simp only [runLoop]
    cases hs1 : step fitFn c1 st with
    | error e =>
      cases hs2 : step fitFn c2 st' with
      | error e' =>
        rw [hs1, hs2] at hstep
        simp only [Except.map] at hstep
        injection hstep with he
        rw [he]
      | ok s2 =>
        rw [hs1, hs2] at hstep
        simp [Except.map] at hstep
    | ok s1 =>
      cases hs2 : step fitFn c2 st' with
      | error e' =>
        rw [hs1, hs2] at hstep
        simp [Except.map] at hstep
      | ok s2 =>
        rw [hs1, hs2] at hstep
        simp only [Except.map] at hstep
        injection hstep with he
        exact ih s1 s2 he

/-! ### Literal run results used by the witnesses -/

/-- The state after the single round of the explicit-estimator scenario. -/
def stGiven : LoopState :=
  ⟨1406932606,
    [[Val.r (2147495993 / 2147483648 : ℚ), Val.r (3924691775 / 1073741824 : ℚ)]],
    [0], [⟨.matern, 100000⟩], [⟨.matern, 100000⟩], [0]⟩

/-- The result of the explicit-estimator scenario. -/
def resGiven : OptResult :=
  ⟨[Val.r (2147495993 / 2147483648 : ℚ), Val.r (3924691775 / 1073741824 : ℚ)], 0,
    [[Val.r (2147495993 / 2147483648 : ℚ), Val.r (3924691775 / 1073741824 : ℚ)]],
    [0], [⟨.matern, 100000⟩], [none, none]⟩

/-- The result of the named mixed-categorical scenario. -/
def resCat3 : OptResult :=
  ⟨[Val.s "1", Val.i 4, Val.r (299923749 / 134217728 : ℚ)],
    (333478181 / 33554432 : ℚ),
    [[Val.s "1", Val.i 4, Val.r (299923749 / 134217728 : ℚ)],
      [Val.s "2", Val.i 5, Val.r (905671811 / 536870912 : ℚ)]],
    [(333478181 / 33554432 : ℚ), (5602100879 / 536870912 : ℚ)],
    [⟨.mixed, 1 / 10000000000⟩, ⟨.mixed, 1 / 10000000000⟩],
    [some "x", some "y", some "z"]⟩

/-- The result of the singleton-integer scenario. -/
def resSingleton : OptResult :=
  ⟨[Val.i 1], 0, [[Val.i 1]], [0], [⟨.matern, 1 / 10000000000⟩], [none]⟩

/-- A zero stratum offset for the Latin hypercube witness. -/
def zeroOff : Fin 2 → Fin 1 → ℚ := fun _ _ => 0

/-! ### The claims -/

/-- C1: For every Point sampled from a Space (in either transformer mode,
"normalize" or "identity"), applying `Space.transform` and then
`Space.inverse_transform` returns the original Point with its native types
unchanged; on the image of `transform` the two maps are two-sided inverses.
The statement covers every legal point — in particular every sampled point,
whose legality is part of the conclusion. -/
theorem C1_round_trip (m : TransformerMode) (dims : List Dimension) (s : Nat) (p : Point)
    (hs : spaceValid dims = true) (hp : pointInSpace p dims = true) :
    inverseTransform m dims (transformPoint m dims p) = p
    ∧ transformPoint m dims (inverseTransform m dims (transformPoint m dims p))
        = transformPoint m dims p
    ∧ pointInSpace (samplePoint dims s).1 dims = true
    ∧ inverseTransform m dims (transformPoint m dims (samplePoint dims s).1)
        = (samplePoint dims s).1 := by
  have h1 := inverseTransform_transformPoint m dims p hs hp
  have hmem := samplePoint_inSpace dims s hs
  have h2 := inverseTransform_transformPoint m dims (samplePoint dims s).1 hs hmem
  exact ⟨h1, by rw [h1], hmem, h2⟩

theorem C1_round_trip_witness :
    spaceValid [Dimension.integer 0 5, Dimension.integer 0 5] = true
    ∧ pointInSpace [Val.i 2, Val.i 5] [Dimension.integer 0 5, Dimension.integer 0 5] = true
    ∧ (inverseTransform .normalize [Dimension.integer 0 5, Dimension.integer 0 5]
          (transformPoint .normalize [Dimension.integer 0 5, Dimension.integer 0 5]
            [Val.i 2, Val.i 5]) = [Val.i 2, Val.i 5]
      ∧ transformPoint .normalize [Dimension.integer 0 5, Dimension.integer 0 5]
          (inverseTransform .normalize [Dimension.integer 0 5, Dimension.integer 0 5]
            (transformPoint .normalize [Dimension.integer 0 5, Dimension.integer 0 5]
              [Val.i 2, Val.i 5]))
          = transformPoint .normalize [Dimension.integer 0 5, Dimension.integer 0 5]
              [Val.i 2, Val.i 5]
      ∧ pointInSpace (samplePoint [Dimension.integer 0 5, Dimension.integer 0 5] 123).1
          [Dimension.integer 0 5, Dimension.integer 0 5] = true
      ∧ inverseTransform .normalize [Dimension.integer 0 5, Dimension.integer 0 5]
          (transformPoint .normalize [Dimension.integer 0 5, Dimension.integer 0 5]
            (samplePoint [Dimension.integer 0 5, Dimension.integer 0 5] 123).1)
          = (samplePoint [Dimension.integer 0 5, Dimension.integer 0 5] 123).1) :=
  ⟨by decide, by decide,
    C1_round_trip .normalize [Dimension.integer 0 5, Dimension.integer 0 5] 123
      [Val.i 2, Val.i 5] (by decide) (by decide)⟩

/-- C7: For every n and d, classic and centered Latin Hypercube generation of n
samples in d dimensions places, in each dimension, exactly one sample in each
of the n equal-width strata of `[0,1)`: no two samples fall in the same stratum
on any axis.  The random permutations and in-stratum offsets are quantified, so
every random draw is covered. -/
theorem C7_lhs_strata (t : LhsType) (n d : Nat) (σ : Fin d → Equiv.Perm (Fin n))
    (off : Fin n → Fin d → ℚ) (hoff : ∀ i j, 0 ≤ off i j ∧ off i j < 1)
    (j : Fin d) (k : Fin n) :
    ∃! i : Fin n, stratumOf n (lhsSample t n d σ off i j) = (k : ℕ) := by
  refine ⟨(σ j).symm k, ?_, ?_⟩
  · show stratumOf n (lhsSample t n d σ off ((σ j).symm k) j) = (k : ℕ)
    rw [stratumOf_lhsSample t n d σ off hoff]
    simp
  · intro i hi
    rw [stratumOf_lhsSample t n d σ off hoff] at hi
    have hk : σ j i = k := Fin.ext hi
    calc i = (σ j).symm (σ j i) := by simp
    _ = (σ j).symm k := by rw [hk]

theorem C7_lhs_strata_witness :
    (∀ (i : Fin 2) (j : Fin 1), 0 ≤ zeroOff i j ∧ zeroOff i j < 1)
    ∧ ∃! i : Fin 2,
        stratumOf 2 (lhsSample .classic 2 1 (fun _ => Equiv.refl (Fin 2)) zeroOff i 0)
          = ((1 : Fin 2) : ℕ) :=
  ⟨fun i j => ⟨le_refl 0, by norm_num [zeroOff]⟩,
    C7_lhs_strata .classic 2 1 (fun _ => Equiv.refl (Fin 2)) zeroOff
      (fun i j => ⟨le_refl 0, by norm_num [zeroOff]⟩) 0 1⟩

/-- C2: For the same random seed, Space, and objective, running `gp_minimize`
with `n_jobs=1` and with `n_jobs=2` produces identical sequences of proposed
points (`x_iters`): parallelism affects only evaluation scheduling (the worker
dispatch recorded in the run), never which points are proposed. -/
theorem C2_njobs_invariance (cfg : Config) :
    (gp_minimize { cfg with nJobs := 1 }).map OptResult.x_iters
      = (gp_minimize { cfg with nJobs := 2 }).map OptResult.x_iters := by
  have hsame : sameButJobs { cfg with nJobs := 1 } { cfg with nJobs := 2 } :=
    ⟨rfl, rfl, rfl, rfl, rfl, rfl, rfl, rfl, rfl, rfl⟩
  have h := runLoop_core_congr fitOk { cfg with nJobs := 1 } { cfg with nJobs := 2 }
    cfg.nCalls (initState { cfg with nJobs := 1 }) (initState { cfg with nJobs := 2 })
    hsame rfl
  unfold gp_minimize gpRun
  cases h1 : runLoop fitOk { cfg with nJobs := 1 } cfg.nCalls
      (initState { cfg with nJobs := 1 }) with
  | error e =>
    cases h2 : runLoop fitOk { cfg with nJobs := 2 } cfg.nCalls
        (initState { cfg with nJobs := 2 }) with
    | error e' =>
      rw [h1, h2] at h
      simp only [Except.map] at h
      injection h with he
      rw [he]
      rfl
    | ok s2 =>
      rw [h1, h2] at h
      simp [Except.map] at h
  | ok s1 =>
    cases h2 : runLoop fitOk { cfg with nJobs := 2 } cfg.nCalls
        (initState { cfg with nJobs := 2 }) with
    | error e' =>
      rw [h1, h2] at h
      simp [Except.map] at h
    | ok s2 =>
      rw [h1, h2] at h
      simp only [Except.map] at h
      injection h with he
      simp only [coreOf, Prod.mk.injEq] at he
      simp only [Except.map, mkResult]
      rw [he.2.1]

/-- C3: When an explicit `base_estimator` is supplied to `gp_minimize`, it is
never replaced by an auto-selected (`cook_estimator`) default: for every run
with an explicit estimator, the model snapshots in the result are that very
estimator, and in particular retain its configured noise parameter, whatever
`noise` option is also passed. -/
theorem C3_explicit_estimator_preserved (cfg : Config) (est : Estimator)
    (hbase : cfg.baseEstimator = some est) (r : OptResult)
    (hrun : gp_minimize cfg = .ok r) :
    (∀ m ∈ r.models, m = est) ∧ (∀ m ∈ r.models, m.noise = est.noise) := by
  unfold gp_minimize at hrun
  cases hst : gpRun fitOk cfg with
  | error e => rw [hst] at hrun; simp [Except.map] at hrun
  | ok st =>
    rw [hst] at hrun
    simp only [Except.map] at hrun
    injection hrun with hr
    have hest : cfg.estimator = est := by simp [Config.estimator, hbase]
    unfold gpRun at hst
    have hmods := runLoop_fitOk_models cfg cfg.nCalls (initState cfg) st hst
      (by intro m hm; simp [initState] at hm)
    have hrm : r.models = st.models := by rw [← hr]; rfl
    constructor
    · intro m hm
      rw [← hest]
      exact hmods m (by rw [← hrm]; exact hm)
    · intro m hm
      have := hmods m (by rw [← hrm]; exact hm)
      rw [this, hest]

theorem C3_explicit_estimator_preserved_witness :
    cfgGiven.baseEstimator = some estGiven
    ∧ gp_minimize cfgGiven = .ok resGiven
    ∧ ((∀ m ∈ resGiven.models, m = estGiven)
        ∧ (∀ m ∈ resGiven.models, m.noise = estGiven.noise))
    ∧ estGiven.noise = 100000 ∧ cfgGiven.noise ≠ estGiven.noise :=
  ⟨rfl, by with_unfolding_all rfl,
    C3_explicit_estimator_preserved cfgGiven estGiven rfl resGiven
      (by with_unfolding_all rfl),
    by with_unfolding_all rfl, by with_unfolding_all (intro h; cases h)⟩

/-- C4 (counterexample): the claimed fit-failure rule — `FitError` whenever
fewer than 2 distinct observations are supplied — contradicts the repository's
own smoke test `test_gpr_default`: with `n_random_starts=1, n_calls=2` the
surrogate is fitted on a single observation after the first round, so the rule
would abort that very run with `FitError`, while the test (and hence the code)
completes it. -/
theorem C4_counterexample :
    gpRun fitSpec cfgSmoke = .error .fitError
    ∧ (gp_minimize cfgSmoke).isOk = true := by
  constructor
  · with_unfolding_all rfl
  · with_unfolding_all rfl

/-- C4 (amended): surrogate fitting does not fail merely because fewer than 2
distinct observations are supplied — the loop fits successfully from a single
observation onward, as the smoke test requires; and when surrogate fitting does
fail, the optimization loop surfaces that failure to the caller rather than
silently skipping a round. -/
theorem C4_fit_failure_surfaced :
    (∀ (fitFn : Estimator → List (Point × ℚ) → Except GpErr Estimator) (cfg : Config)
        (n : Nat) (st : LoopState) (e : GpErr), step fitFn cfg st = .error e →
          runLoop fitFn cfg (n + 1) st = .error e)
    ∧ (gpRun fitOk cfgSmoke).map (fun st => st.xs.length) = .ok 2 := by
  constructor
  · intro fitFn cfg n st e h
    simp only [runLoop, h]
  · with_unfolding_all rfl

theorem C4_fit_failure_surfaced_witness :
    step fitSpec cfgSmoke (initState cfgSmoke) = .error .fitError
    ∧ runLoop fitSpec cfgSmoke 2 (initState cfgSmoke) = .error .fitError :=
  ⟨by with_unfolding_all rfl,
    C4_fit_failure_surfaced.1 fitSpec cfgSmoke 1 (initState cfgSmoke) .fitError
      (by with_unfolding_all rfl)⟩

/-- C6: Running `gp_minimize` with `model_queue_size=1` and `n_calls=1` yields a
result whose retained list of surrogate snapshots has length exactly 1; in
general the loop keeps exactly the `model_queue_size` most recent snapshots
(the retained queue is the suffix of the full snapshot history, oldest evicted
first) while the full point history and the full value history are kept in
their entirety — one point entry and one value entry per call, regardless of
the queue size. -/
theorem C6_model_queue :
    ((gp_minimize cfgQueue).map (fun r => r.models.length) = .ok 1)
    ∧ (∀ (cfg : Config) (k : Nat) (st : LoopState), cfg.modelQueueSize = some k →
        gpRun fitOk cfg = .ok st →
        st.models = lastN k st.allModels ∧ st.models.length ≤ k
          ∧ st.xs.length = cfg.nCalls ∧ st.ys.length = cfg.nCalls) := by
  constructor
  · with_unfolding_all rfl
  · intro cfg k st hq hrun
    unfold gpRun at hrun
    have hqueue := runLoop_fitOk_queue cfg k cfg.nCalls (initState cfg) st hq hrun
      (by simp [initState, lastN])
    have hlen := runLoop_fitOk_xs_length cfg cfg.nCalls (initState cfg) st hrun
    have hylen := runLoop_fitOk_ys_length cfg cfg.nCalls (initState cfg) st hrun
    refine ⟨hqueue, ?_, ?_, ?_⟩
    · rw [hqueue]
      exact lastN_length_le k st.allModels
    · simpa [initState] using hlen
    · simpa [initState] using hylen

theorem C6_model_queue_witness :
    cfgQueue.modelQueueSize = some 1
    ∧ gpRun fitOk cfgQueue = .ok stGiven
    ∧ (stGiven.models = lastN 1 stGiven.allModels ∧ stGiven.models.length ≤ 1
        ∧ stGiven.xs.length = cfgQueue.nCalls ∧ stGiven.ys.length = cfgQueue.nCalls) :=
  ⟨rfl, by with_unfolding_all rfl,
    C6_model_queue.2 cfgQueue 1 stGiven rfl (by with_unfolding_all rfl)⟩

/-- C8: For every Space containing a single-valued Integer dimension (a
`[1,1]`-style singleton), every point proposed by the optimization loop assigns
that dimension its only legal value. -/
theorem C8_singleton_integer (cfg : Config) (hs : spaceValid cfg.dims = true)
    (j : Nat) (a : Int) (hj : cfg.dims[j]? = some (.integer a a)) (r : OptResult)
    (hrun : gp_minimize cfg = .ok r) :
    ∀ p ∈ r.x_iters, p[j]? = some (Val.i a) := by
  unfold gp_minimize at hrun
  cases hst : gpRun fitOk cfg with
  | error e => rw [hst] at hrun; simp [Except.map] at hrun
  | ok st =>
    rw [hst] at hrun
    simp only [Except.map] at hrun
    injection hrun with hr
    unfold gpRun at hst
    have hin := runLoop_fitOk_inSpace cfg cfg.nCalls (initState cfg) st hs hst
      (by intro p hp; simp [initState] at hp)
    intro p hp
    have hpx : p ∈ st.xs := by
      have : r.x_iters = st.xs := by rw [← hr]; rfl
      rw [← this]; exact hp
    obtain ⟨v, hv, hmem⟩ := pointInSpace_get p cfg.dims (hin p hpx) j _ hj
    cases v with
    | s str => simp [memDim] at hmem
    | r q => simp [memDim] at hmem
    | i nv =>
      simp only [memDim, decide_eq_true_eq] at hmem
      have : nv = a := le_antisymm hmem.2 hmem.1
      rw [hv, this]

theorem C8_singleton_integer_witness :
    spaceValid cfgSingleton.dims = true
    ∧ cfgSingleton.dims[0]? = some (.integer 1 1)
    ∧ gp_minimize cfgSingleton = .ok resSingleton
    ∧ ∀ p ∈ resSingleton.x_iters, p[0]? = some (Val.i 1) :=
  ⟨by decide, rfl, by with_unfolding_all rfl,
    C8_singleton_integer cfgSingleton (by decide) 0 1 rfl resSingleton
      (by with_unfolding_all rfl)⟩

/-- C9: When the Space has zero continuous dimensions, the gradient-based
acquisition optimizer falls back to sampling-based search, so `gp_minimize` on
the all-categorical Space completes without error; and with seed 1 and the
objective `int(x) + y` over categories `["1","2","3"]` and `[4,5,6]` it returns
best point `['1', 4]` within 12 calls. -/
theorem C9_categorical_fallback :
    effectiveOptimizer dimsCat2 .lbfgs = .sampling
    ∧ (gp_minimize cfgCat2).isOk = true
    ∧ (gp_minimize cfgCat2).map (fun r => r.x) = .ok [Val.s "1", Val.i 4] := by
  refine ⟨rfl, ?_, ?_⟩
  · with_unfolding_all rfl
  · with_unfolding_all rfl

/-- C10: The result returned by `gp_minimize` supports both attribute-style
access (the structure fields `x`, `funVal`, `x_iters`, `func_vals`, `models`)
and mapping-style access (`getItem`) on the same object, the two agreeing on
every key; and when dimensions are named, indexing by the dimension name `"x"`
returns the best point — the list of the best point's values for the named
dimensions, one per name, in dimension order. -/
theorem C10_result_access :
    (∀ r : OptResult,
      r.getItem "fun" = some (.value r.funVal)
      ∧ r.getItem "x_iters" = some (.points r.x_iters)
      ∧ r.getItem "func_vals" = some (.values r.func_vals)
      ∧ r.getItem "models" = some (.snapshots r.models)
      ∧ r.getItem "x" = some (.point r.x))
    ∧ (∀ r : OptResult, gp_minimize cfgCat3 = .ok r →
        r.names = [some "x", some "y", some "z"]
        ∧ r.getItem "x" = some (.point r.x)
        ∧ r.x.length = r.names.length) := by
  constructor
  · intro r
    exact ⟨rfl, rfl, rfl, rfl, rfl⟩
  · intro r hr
    have hc : gp_minimize cfgCat3 = .ok resCat3 := by with_unfolding_all rfl
    rw [hc] at hr
    injection hr with hr
    rw [← hr]
    exact ⟨rfl, rfl, rfl⟩

theorem C10_result_access_witness :
    gp_minimize cfgCat3 = .ok resCat3
    ∧ (resCat3.names = [some "x", some "y", some "z"]
        ∧ resCat3.getItem "x" = some (.point resCat3.x)
        ∧ resCat3.x.length = resCat3.names.length) :=
  ⟨by with_unfolding_all rfl,
    C10_result_access.2 resCat3 (by with_unfolding_all rfl)⟩

end SkoptSpec
